import Mathlib

/-!
# Verification of the book-RAG ingestion and query scripts

Shallow embedding of `process_books.py` and `query_database.py`.
Text is modelled as `List Char`; Python strings map to character lists,
`str.split()` / `str.strip()` / `re.sub` are embedded as executable
functions below.  Only the ASCII fragment of Python's Unicode-aware
character classes (`\s`, `\w`, `str.isspace`) is modelled; every claim is
about ASCII behaviour.
-/

/-- ASCII fragment of Python's whitespace class `\s` (also used by
`str.split()` and `str.strip()`): space, tab, newline, carriage return,
vertical tab, form feed. -/
def pyIsSpace (c : Char) : Bool :=
  c = ' ' || c = '\t' || c = '\n' || c = '\r' || c = '\x0b' || c = '\x0c'

/-- ASCII fragment of the regex class `\w`: letters, digits, underscore. -/
def isWordChar (c : Char) : Bool :=
  c.isAlphanum || c = '_'

/-- The allow-list of `re.sub(r'[^\w\s\.\,\!\?\;\:\-\(\)]', '', text)`:
word characters, whitespace, and the punctuation set . , ! ? ; : - ( ). -/
def allowedChar (c : Char) : Bool :=
  isWordChar c || pyIsSpace c ||
  c = '.' || c = ',' || c = '!' || c = '?' || c = ';' || c = ':' ||
  c = '-' || c = '(' || c = ')'

/-- A whitespace character is rewritten to a single space; any other
character is kept. -/
def normSpace (c : Char) : Char :=
  if pyIsSpace c then ' ' else c

/-- `re.sub(r'\s+', ' ', text)`: every maximal run of whitespace is
replaced by one space character. -/
def collapseWS : List Char → List Char
  | [] => []
  | [c] => [normSpace c]
  | c1 :: c2 :: rest =>
    if pyIsSpace c1 && pyIsSpace c2 then collapseWS (c2 :: rest)
    else normSpace c1 :: collapseWS (c2 :: rest)

/-- Python `str.strip()`: drop whitespace from both ends. -/
def stripChars (l : List Char) : List Char :=
  ((l.dropWhile pyIsSpace).reverse.dropWhile pyIsSpace).reverse

/-- `BookRAGProcessor.clean_text`: collapse whitespace runs, delete
characters outside the allow-list, then strip both ends. -/
def clean_text (l : List Char) : List Char :=
  stripChars ((collapseWS l).filter allowedChar)

/-- Accumulator loop for Python `str.split()` with no separator argument:
words are maximal runs of non-whitespace; no empty words are produced. -/
def splitAux : List Char → List Char → List (List Char)
  | [], acc => if acc.isEmpty then [] else [acc.reverse]
  | c :: t, acc =>
    if pyIsSpace c then
      if acc.isEmpty then splitAux t [] else acc.reverse :: splitAux t []
    else splitAux t (c :: acc)

/-- Python `text.split()`. -/
def pySplit (l : List Char) : List (List Char) :=
  splitAux l []

/-- Python `' '.join(words)`. -/
def spaceJoin (ws : List (List Char)) : List Char :=
  List.intercalate [' '] ws

/-- Python `range(0, stop, step)` for integer `step`.  A zero step raises
`ValueError` (modelled as `none`); a negative step with `stop ≥ 0` yields
the empty range; a positive step yields the multiples of `step` below
`stop`. -/
def pyRange0 (stop : Nat) (step : Int) : Option (List Nat) :=
  if 0 < step then
    some ((List.range ((stop + step.toNat - 1) / step.toNat)).map (fun j => j * step.toNat))
  else if step < 0 then some []
  else none

/-- The raw word windows of `chunk_text` before the 50-character filter:
`words[i:i + chunk_size]` for each `i` produced by
`range(0, len(words), chunk_size - overlap)`. -/
def raw_windows (words : List (List Char)) (chunk_size overlap : Nat) :
    Option (List (List (List Char))) :=
  (pyRange0 words.length ((chunk_size : Int) - (overlap : Int))).map
    (fun starts => starts.map (fun i => (words.drop i).take chunk_size))

/-- The filter `len(chunk.strip()) > 50` of `chunk_text`. -/
def chunkKeep (c : List Char) : Bool :=
  decide (50 < (stripChars c).length)

/-- `chunk_text` after `words = text.split()`: join each raw window with
single spaces and keep the chunks passing the length filter. -/
def chunk_words (words : List (List Char)) (chunk_size overlap : Nat) :
    Option (List (List Char)) :=
  (raw_windows words chunk_size overlap).map
    (fun W => (W.map spaceJoin).filter chunkKeep)

/-- `BookRAGProcessor.chunk_text`. -/
def chunk_text (text : List Char) (chunk_size overlap : Nat) :
    Option (List (List Char)) :=
  chunk_words (pySplit text) chunk_size overlap

/-!
## Ingestion orchestrator (`process_books.py`)

A PDF document is modelled by what `extract_text_from_pdf` can observe:
either opening/parsing the file raises (the `openFail` case, before any
page text is accumulated), or it presents a list of pages, each of which
either yields its text or raises when `page.extract_text()` is called.
-/

/-- A source document as seen by `extract_text_from_pdf`. -/
inductive PdfDoc where
  | openFail : List Char → PdfDoc
  | pages : List (Except (List Char) (List Char)) → PdfDoc

/-- The page loop of `extract_text_from_pdf`: page texts are accumulated
with a trailing newline each; the first page error aborts the loop and the
text accumulated so far is returned together with the caught message. -/
def extractLoop : List (Except (List Char) (List Char)) → List Char →
    List Char × Option (List Char)
  | [], acc => (acc, none)
  | Except.error e :: _, acc => (acc, some e)
  | Except.ok t :: rest, acc => extractLoop rest (acc ++ t ++ ['\n'])

/-- `BookRAGProcessor.extract_text_from_pdf`: returns the extracted text
and the caught exception message, if any.  The `try` block surrounds both
the `open` and the page loop, so every failure is caught; the text
accumulated before the failure is returned. -/
def extract_text_from_pdf : PdfDoc → List Char × Option (List Char)
  | PdfDoc.openFail e => ([], some e)
  | PdfDoc.pages ps => extractLoop ps []

/-- `chunk_text` at the default parameters `chunk_size=500, overlap=50`;
the step `450` is positive, so the range never raises and the option is
always populated. -/
def chunksDefault (text : List Char) : List (List Char) :=
  (chunk_text text 500 50).getD []

/-- The chunks one document contributes in the `process_all_books` loop:
a document whose extracted text strips to empty is skipped, otherwise the
text is cleaned and chunked with the default parameters. -/
def docChunks (doc : PdfDoc) : List (List Char) :=
  if stripChars (extract_text_from_pdf doc).1 = [] then []
  else chunksDefault (clean_text (extract_text_from_pdf doc).1)

/-- `all_chunks` accumulated over a list of documents, in order. -/
def allChunks : List PdfDoc → List (List Char)
  | [] => []
  | d :: t => docChunks d ++ allChunks t

/-- Python `f.endswith('.pdf')`. -/
def endsWithPdf (s : List Char) : Bool :=
  List.isSuffixOf ['.', 'p', 'd', 'f'] s

/-- Python `f.replace('.pdf', '')`: every occurrence of the substring
`.pdf` is removed, scanning left to right. -/
def stripPdfAll : List Char → List Char
  | '.' :: 'p' :: 'd' :: 'f' :: t => stripPdfAll t
  | c :: t => c :: stripPdfAll t
  | [] => []

/-- Modelled from the spec: the claim's words "the discovered file's base
name" mean the file name with its final `.pdf` extension removed.  Used
only to compare the specified summary contents with what the code
computes. -/
def baseName (s : List Char) : List Char :=
  if endsWithPdf s then s.take (s.length - 4) else s

/-- The processing summary written by `process_all_books`. -/
structure Summary where
  total_books : Nat
  total_chunks : Nat
  books_processed : List (List Char)
deriving DecidableEq

/-- `BookRAGProcessor.process_all_books` over a directory listing of
(file name, document) pairs: files not ending in `.pdf` are ignored; if no
PDF file is found the function returns early and writes no summary
(`none`); otherwise chunks are accumulated per document and the summary is
written from the full PDF list, whether or not a document contributed
chunks.  Embedding and storage are external calls that do not affect the
summary and are not modelled. -/
def process_all_books (files : List (List Char × PdfDoc)) : Option Summary :=
  if (files.filter (fun f => endsWithPdf f.1)).isEmpty then none
  else
    some { total_books := (files.filter (fun f => endsWithPdf f.1)).length
           total_chunks :=
             (allChunks ((files.filter (fun f => endsWithPdf f.1)).map Prod.snd)).length
           books_processed :=
             (files.filter (fun f => endsWithPdf f.1)).map (fun f => stripPdfAll f.1) }

/-!
## Query pipeline (`query_database.py`)

The ChromaDB store and the embedding model are external collaborators;
an invocation is modelled by what they return: an exception message, or a
`RawResults` record holding the lists the code indexes into.  Distances
are modelled as rationals (the code's arithmetic on them is a single
subtraction).  Standard output and standard error are modelled explicitly
so that the routing of error messages is part of the state.
-/

/-- A chunk metadata record (`{'book': ..., 'chunk_id': ..., 'source': ...}`). -/
structure PyMeta where
  book : List Char
  chunk_id : Nat
  source : List Char
deriving DecidableEq

/-- The dictionary returned by `collection.query`, as the code reads it:
`results['documents']`, `results['metadatas']`, `results['distances']`,
each a list per query embedding. -/
structure RawResults where
  documents : List (List (List Char))
  metadatas : List (List PyMeta)
  distances : List (List Rat)
deriving DecidableEq

/-- One formatted result: `{'content': ..., 'metadata': ..., 'score': 1 - distance}`. -/
structure QueryHit where
  content : List Char
  metadata : PyMeta
  score : Rat
deriving DecidableEq

/-- One item printed to standard output by `query_database.py`. -/
inductive StdoutItem where
  | usageLine : StdoutItem
  | jsonPayload : List QueryHit → StdoutItem
deriving DecidableEq

/-- What one invocation of `query_database` produces: the returned list,
the items it printed to standard output, and the lines it printed to
standard error. -/
structure QueryOut where
  result : List QueryHit
  stdout : List StdoutItem
  stderr : List (List Char)
deriving DecidableEq

/-- The stderr line `print(f"Error querying database: ...", file=sys.stderr)`. -/
def errMsg (e : List Char) : List Char :=
  "Error querying database: ".toList ++ e

def defaultMeta : PyMeta :=
  { book := [], chunk_id := 0, source := [] }

/-- The result-formatting loop of `query_database`. -/
def formatHits (docs0 : List (List Char)) (metas0 : List PyMeta)
    (dists0 : List Rat) : List QueryHit :=
  (List.range docs0.length).map fun i =>
    { content := docs0.getD i []
      metadata := metas0.getD i defaultMeta
      score := 1 - dists0.getD i 0 }

/-- `query_database`: everything runs inside one `try`.  A store error
(missing collection, embedding failure, retrieval failure) is caught,
logged to standard error, and an empty list is returned.  On success the
code guards `if results['documents'] and results['documents'][0]` and then
indexes `metadatas[0][i]` and `distances[0][i]`; an out-of-range index
raises `IndexError`, which the same handler catches, so the malformed-store
case is modelled by the bounds test below.  No branch writes to standard
output. -/
def query_database : Except (List Char) RawResults → QueryOut
  | Except.error e => { result := [], stdout := [], stderr := [errMsg e] }
  | Except.ok r =>
    if r.documents ≠ [] ∧ r.documents.headD [] ≠ [] then
      if (r.documents.headD []).length ≤ (r.metadatas.headD []).length ∧
         (r.documents.headD []).length ≤ (r.distances.headD []).length ∧
         r.metadatas ≠ [] ∧ r.distances ≠ [] then
        { result := formatHits (r.documents.headD []) (r.metadatas.headD [])
            (r.distances.headD [])
          stdout := []
          stderr := [] }
      else { result := [], stdout := [], stderr := [errMsg ("list index out of range".toList)] }
    else { result := [], stdout := [], stderr := [] }

/-- Python `int(s)` on a string: surrounding whitespace is ignored, an
optional sign is followed by at least one decimal digit; anything else
raises `ValueError` (`none`).  Underscore digit grouping is not modelled;
no claim exercises it. -/
def digitsToNat : List Char → Option Nat
  | [] => none
  | ds =>
    ds.foldl
      (fun acc c =>
        match acc with
        | some a => if c.isDigit then some (a * 10 + (c.toNat - 48)) else none
        | none => none)
      (some 0)

def pyParseInt (s : List Char) : Option Int :=
  match stripChars s with
  | '+' :: ds => (digitsToNat ds).map (fun n => (n : Int))
  | '-' :: ds => (digitsToNat ds).map (fun n => -(n : Int))
  | ds => (digitsToNat ds).map (fun n => (n : Int))

/-- The `__main__` block of `query_database.py`.  `argv` includes the
script name at index 0.  The store collaborator is a function of the query
text and the `top_k` value handed to `collection.query`.  Returns the
standard-output items, the standard-error lines, and `some message` when
an exception escapes uncaught (the bare `int(sys.argv[2])`). -/
def cliMain (argv : List (List Char))
    (store : List Char → Int → Except (List Char) RawResults) :
    List StdoutItem × List (List Char) × Option (List Char) :=
  if argv.length < 2 then ([StdoutItem.usageLine], [], none)
  else
    match (if 2 < argv.length then pyParseInt (argv.getD 2 []) else some 5) with
    | none => ([], [], some ("invalid literal for int() with base 10".toList))
    | some k =>
      let q := query_database (store (argv.getD 1 []) k)
      (q.stdout ++ [StdoutItem.jsonPayload q.result], q.stderr, none)

/-!
## Specification predicates and concrete claim inputs
-/

/-- Executable form of "contains no run of two or more consecutive
whitespace characters". -/
def noAdjWSb : List Char → Bool
  | [] => true
  | [_] => true
  | a :: b :: t => !(pyIsSpace a && pyIsSpace b) && noAdjWSb (b :: t)

/-- A text whose only disallowed character sits between two spaces. -/
def badText : List Char := ['a', ' ', '@', ' ', 'b']

/-- A text of 910 single-letter words. -/
def w910text : List Char := spaceJoin (List.replicate 910 (['a'] : List Char))

/-- The raw windows `chunk_text` builds for 910 single-letter words. -/
def W910 : List (List (List Char)) :=
  [List.replicate 500 (['a'] : List Char),
   List.replicate 460 (['a'] : List Char),
   List.replicate 10 (['a'] : List Char)]

/-- A text of 600 single-letter words. -/
def T600 : List Char := spaceJoin (List.replicate 600 (['a'] : List Char))

/-- A text that splits into one 60-character word. -/
def text60 : List Char := List.replicate 60 'a'

/-- A document whose first page extracts 60 characters of text and whose
second page raises. -/
def docMidFail : PdfDoc :=
  PdfDoc.pages [Except.ok (List.replicate 60 'a'), Except.error ['b']]

/-- A document with one page of meaningful text. -/
def preDoc : PdfDoc := PdfDoc.pages [Except.ok (List.replicate 60 'a')]

/-- A store collaborator that always raises. -/
def storeErr : List Char → Int → Except (List Char) RawResults :=
  fun _ _ => Except.error ['x']

/-- `argv` with a non-integer `top_k` argument. -/
def argvBad : List (List Char) := [['q'], ['h', 'i'], ['a', 'b', 'c']]

/-- `argv` with a query and no `top_k` argument. -/
def argvOk : List (List Char) := [['q'], ['h', 'i']]

/-- A raising store value. -/
def storeX : Except (List Char) RawResults := Except.error ['x']

/-- A directory listing with one discovered file whose name contains
`.pdf` twice. -/
def pdfPdfFiles : List (List Char × PdfDoc) :=
  [("a.pdf.pdf".toList, PdfDoc.openFail [])]

/-- A directory listing with one well-named file whose extraction fails. -/
def oneGoodName : List (List Char × PdfDoc) :=
  [("a.pdf".toList, PdfDoc.openFail [])]

/-!
## Lemmas about the normalizer
-/

theorem pyIsSpace_normSpace (c : Char) : pyIsSpace (normSpace c) = pyIsSpace c := by
  unfold normSpace
  split
  · next h => rw [h]; decide
  · rfl

theorem normSpace_of_not_space (c : Char) (h : pyIsSpace c = false) : normSpace c = c := by
  unfold normSpace
  rw [h]
  rfl

theorem collapseWS_head (t : List Char) : ∀ c, ∃ d t',
    collapseWS (c :: t) = d :: t' ∧ pyIsSpace d = pyIsSpace c := by
  induction t with
  | nil =>
    intro c
    exact ⟨normSpace c, [], rfl, pyIsSpace_normSpace c⟩
  | cons c2 rest ih =>
    intro c
    by_cases h : (pyIsSpace c && pyIsSpace c2) = true
    · obtain ⟨d, t', hd, hws⟩ := ih c2
      refine ⟨d, t', ?_, ?_⟩
      · rw [collapseWS, if_pos h, hd]
      · rw [hws]
        obtain ⟨h1, h2⟩ := Bool.and_eq_true_iff.mp h
        rw [h1, h2]
    · exact ⟨normSpace c, collapseWS (c2 :: rest), by rw [collapseWS, if_neg h],
        pyIsSpace_normSpace c⟩

theorem collapseWS_ne_nil (c : Char) (t : List Char) : collapseWS (c :: t) ≠ [] := by
  obtain ⟨d, t', hd, _⟩ := collapseWS_head t c
  rw [hd]
  exact List.cons_ne_nil d t'

theorem noAdjWSb_collapseWS (l : List Char) : noAdjWSb (collapseWS l) = true := by
  induction l with
  | nil => rfl
  | cons c t ih =>
    cases t with
    | nil => rfl
    | cons c2 rest =>
      by_cases h : (pyIsSpace c && pyIsSpace c2) = true
      · rw [collapseWS, if_pos h]
        exact ih
      · rw [collapseWS, if_neg h]
        obtain ⟨d, t', hd, hws⟩ := collapseWS_head rest c2
        rw [hd]
        rw [hd] at ih
        rw [noAdjWSb, ih, Bool.and_true, pyIsSpace_normSpace, hws]
        rw [Bool.not_eq_true] at h
        rw [h]
        rfl

theorem collapseWS_eq_self (l : List Char) (hadj : noAdjWSb l = true)
    (hsp : ∀ c ∈ l, pyIsSpace c = true → c = ' ') : collapseWS l = l := by
  induction l with
  | nil => rfl
  | cons c t ih =>
    cases t with
    | nil =>
      rw [collapseWS]
      by_cases h : pyIsSpace c = true
      · rw [normSpace, if_pos h, hsp c (List.mem_singleton_self c) h]
      · rw [normSpace_of_not_space c (Bool.not_eq_true _ ▸ h)]
    | cons c2 rest =>
      rw [noAdjWSb, Bool.and_eq_true_iff] at hadj
      have h12 : (pyIsSpace c && pyIsSpace c2) = false := by
        have := hadj.1
        rwa [Bool.not_eq_true'] at this
      rw [collapseWS, if_neg (by rw [h12]; exact Bool.false_ne_true)]
      have hcc : normSpace c = c := by
        by_cases h : pyIsSpace c = true
        · rw [normSpace, if_pos h, hsp c (List.mem_cons_self c _) h]
        · rw [normSpace_of_not_space c (Bool.not_eq_true _ ▸ h)]
      rw [hcc, ih hadj.2 (fun a ha hws => hsp a (List.mem_cons_of_mem c ha) hws)]

theorem mem_collapseWS (l : List Char) (c : Char) (hc : c ∈ collapseWS l) :
    c = ' ' ∨ c ∈ l := by
  induction l with
  | nil => exact absurd hc (List.not_mem_nil c)
  | cons a t ih =>
    cases t with
    | nil =>
      rw [collapseWS, List.mem_singleton] at hc
      subst hc
      by_cases h : pyIsSpace a = true
      · left; rw [normSpace, if_pos h]
      · right; rw [normSpace_of_not_space a (Bool.not_eq_true _ ▸ h)]
        exact List.mem_singleton_self a
    | cons a2 rest =>
      by_cases h : (pyIsSpace a && pyIsSpace a2) = true
      · rw [collapseWS, if_pos h] at hc
        rcases ih hc with h1 | h1
        · exact Or.inl h1
        · exact Or.inr (List.mem_cons_of_mem a h1)
      · rw [collapseWS, if_neg h, List.mem_cons] at hc
        rcases hc with h1 | h1
        · subst h1
          by_cases hws : pyIsSpace a = true
          · left; rw [normSpace, if_pos hws]
          · right; rw [normSpace_of_not_space a (Bool.not_eq_true _ ▸ hws)]
            exact List.mem_cons_self a _
        · rcases ih h1 with h2 | h2
          · exact Or.inl h2
          · exact Or.inr (List.mem_cons_of_mem a h2)

theorem mem_collapseWS_ws (l : List Char) (c : Char) (hc : c ∈ collapseWS l)
    (hws : pyIsSpace c = true) : c = ' ' := by
  induction l with
  | nil => exact absurd hc (List.not_mem_nil c)
  | cons a t ih =>
    cases t with
    | nil =>
      rw [collapseWS, List.mem_singleton] at hc
      subst hc
      by_cases h : pyIsSpace a = true
      · rw [normSpace, if_pos h]
      · rw [normSpace_of_not_space a (Bool.not_eq_true _ ▸ h)] at hws ⊢
        rw [Bool.not_eq_true] at h
        exact absurd hws (by rw [h]; exact Bool.false_ne_true)
    | cons a2 rest =>
      by_cases h : (pyIsSpace a && pyIsSpace a2) = true
      · rw [collapseWS, if_pos h] at hc
        exact ih hc
      · rw [collapseWS, if_neg h, List.mem_cons] at hc
        rcases hc with h1 | h1
        · subst h1
          by_cases ha : pyIsSpace a = true
          · rw [normSpace, if_pos ha]
          · rw [normSpace_of_not_space a (Bool.not_eq_true _ ▸ ha)] at hws ⊢
            rw [Bool.not_eq_true] at ha
            exact absurd hws (by rw [ha]; exact Bool.false_ne_true)
        · exact ih h1

theorem getLast?_collapseWS (l : List Char) (d : Char) (hl : l.getLast? = some d)
    (hd : pyIsSpace d = false) : (collapseWS l).getLast? = some d := by
  induction l with
  | nil => simp at hl
  | cons c t ih =>
    cases t with
    | nil =>
      rw [List.getLast?_singleton, Option.some.injEq] at hl
      subst hl
      rw [collapseWS, normSpace_of_not_space c hd, List.getLast?_singleton]
    | cons c2 rest =>
      rw [List.getLast?_cons_cons] at hl
      have ih' := ih hl
      by_cases h : (pyIsSpace c && pyIsSpace c2) = true
      · rw [collapseWS, if_pos h]
        exact ih'
      · rw [collapseWS, if_neg h]
        obtain ⟨e, t', he, _⟩ := collapseWS_head rest c2
        rw [he]
        rw [he] at ih'
        rw [List.getLast?_cons_cons]
        exact ih'

/-!
## Lemmas about stripping
-/

theorem head?_dropWhile (p : Char → Bool) (l : List Char) (c : Char)
    (h : (l.dropWhile p).head? = some c) : p c = false := by
  induction l with
  | nil => simp at h
  | cons a t ih =>
    rw [List.dropWhile_cons] at h
    by_cases ha : p a = true
    · rw [if_pos ha] at h
      exact ih h
    · rw [if_neg ha, List.head?_cons, Option.some.injEq] at h
      subst h
      exact Bool.not_eq_true _ ▸ ha

theorem dropWhile_eq_self_of_head (p : Char → Bool) (l : List Char)
    (h : ∀ c, l.head? = some c → p c = false) : l.dropWhile p = l := by
  cases l with
  | nil => rfl
  | cons a t =>
    have ha := h a rfl
    rw [List.dropWhile_cons, if_neg (by rw [ha]; exact Bool.false_ne_true)]

theorem getLast?_dropWhile (p : Char → Bool) (l : List Char)
    (h : l.dropWhile p ≠ []) : (l.dropWhile p).getLast? = l.getLast? := by
  induction l with
  | nil => exact absurd rfl h
  | cons a t ih =>
    by_cases ha : p a = true
    · rw [List.dropWhile_cons, if_pos ha]
      rw [List.dropWhile_cons, if_pos ha] at h
      rw [ih h]
      cases t with
      | nil => exact absurd rfl h
      | cons b u => rw [List.getLast?_cons_cons]
    · rw [List.dropWhile_cons, if_neg ha]

theorem stripChars_head (l : List Char) (c : Char) (h : (stripChars l).head? = some c) :
    pyIsSpace c = false := by
  unfold stripChars at h
  rw [List.head?_reverse] at h
  by_cases hne : ((l.dropWhile pyIsSpace).reverse).dropWhile pyIsSpace = []
  · rw [hne] at h
    simp at h
  · rw [getLast?_dropWhile pyIsSpace _ hne, List.getLast?_reverse] at h
    exact head?_dropWhile pyIsSpace _ c h

theorem stripChars_getLast (l : List Char) (c : Char)
    (h : (stripChars l).getLast? = some c) : pyIsSpace c = false := by
  unfold stripChars at h
  rw [List.getLast?_reverse] at h
  exact head?_dropWhile pyIsSpace _ c h

theorem stripChars_subset (l : List Char) (c : Char) (h : c ∈ stripChars l) : c ∈ l := by
  unfold stripChars at h
  rw [List.mem_reverse] at h
  have h1 : c ∈ (l.dropWhile pyIsSpace).reverse := (List.dropWhile_sublist _).mem h
  rw [List.mem_reverse] at h1
  exact (List.dropWhile_sublist _).mem h1

theorem stripChars_eq_self (l : List Char)
    (h1 : ∀ c, l.head? = some c → pyIsSpace c = false)
    (h2 : ∀ c, l.getLast? = some c → pyIsSpace c = false) : stripChars l = l := by
  unfold stripChars
  rw [dropWhile_eq_self_of_head pyIsSpace l h1]
  have e2 : l.reverse.dropWhile pyIsSpace = l.reverse := by
    apply dropWhile_eq_self_of_head
    intro c hc
    rw [List.head?_reverse] at hc
    exact h2 c hc
  rw [e2, List.reverse_reverse]

/-!
## Lemmas about clean_text
-/

theorem clean_text_allowed (x : List Char) : ∀ c ∈ clean_text x, allowedChar c = true := by
  intro c hc
  have h1 := stripChars_subset _ c hc
  exact List.of_mem_filter h1

theorem clean_text_ws (x : List Char) : ∀ c ∈ clean_text x, pyIsSpace c = true → c = ' ' := by
  intro c hc hws
  have h1 := stripChars_subset _ c hc
  exact mem_collapseWS_ws x c (List.mem_of_mem_filter h1) hws

theorem clean_text_head (x : List Char) (c : Char) (h : (clean_text x).head? = some c) :
    pyIsSpace c = false :=
  stripChars_head _ c h

theorem clean_text_getLast (x : List Char) (c : Char) (h : (clean_text x).getLast? = some c) :
    pyIsSpace c = false :=
  stripChars_getLast _ c h

/-- On a list of allowed characters whose ends are not whitespace, a
`clean_text` pass is exactly a whitespace-collapse pass: the filter and
the strip do nothing new. -/
theorem clean_text_of_clean (y : List Char)
    (hall : ∀ c ∈ y, allowedChar c = true)
    (hh : ∀ c, y.head? = some c → pyIsSpace c = false)
    (hl : ∀ c, y.getLast? = some c → pyIsSpace c = false) :
    clean_text y = collapseWS y := by
  unfold clean_text
  have hfil : (collapseWS y).filter allowedChar = collapseWS y := by
    apply List.filter_eq_self.mpr
    intro a ha
    rcases mem_collapseWS y a ha with h | h
    · subst h; decide
    · exact hall a h
  rw [hfil]
  apply stripChars_eq_self
  · intro c hc
    cases y with
    | nil => simp [collapseWS] at hc
    | cons a t =>
      obtain ⟨d, t', hd, hws⟩ := collapseWS_head t a
      rw [hd, List.head?_cons, Option.some.injEq] at hc
      subst hc
      rw [hws]
      exact hh a rfl
  · intro c hc
    cases y with
    | nil => simp [collapseWS] at hc
    | cons a t =>
      have hsome : ∃ d, (a :: t).getLast? = some d := by
        cases hval : (a :: t).getLast? with
        | none => rw [List.getLast?_eq_none_iff] at hval; exact absurd hval (List.cons_ne_nil a t)
        | some d => exact ⟨d, rfl⟩
      obtain ⟨d, hld⟩ := hsome
      have hdns := hl d hld
      have := getLast?_collapseWS (a :: t) d hld hdns
      rw [this, Option.some.injEq] at hc
      subst hc
      exact hdns

/-- A list that is already in the normal form produced by two `clean_text`
passes is a fixed point of `clean_text`. -/
theorem clean_text_fixed (z : List Char)
    (hadj : noAdjWSb z = true)
    (hsp : ∀ c ∈ z, pyIsSpace c = true → c = ' ')
    (hall : ∀ c ∈ z, allowedChar c = true)
    (hh : ∀ c, z.head? = some c → pyIsSpace c = false)
    (hl : ∀ c, z.getLast? = some c → pyIsSpace c = false) :
    clean_text z = z := by
  rw [clean_text_of_clean z hall hh hl, collapseWS_eq_self z hadj hsp]

theorem clean_clean_eq_collapse (x : List Char) :
    clean_text (clean_text x) = collapseWS (clean_text x) :=
  clean_text_of_clean (clean_text x) (clean_text_allowed x) (clean_text_head x)
    (clean_text_getLast x)

/-- A whitespace-collapse pass over a list of allowed characters with
non-whitespace ends is a fixed point of `clean_text`. -/
theorem clean_text_collapse_fixed (y : List Char)
    (hall : ∀ c ∈ y, allowedChar c = true)
    (hh : ∀ c, y.head? = some c → pyIsSpace c = false)
    (hl : ∀ c, y.getLast? = some c → pyIsSpace c = false) :
    clean_text (collapseWS y) = collapseWS y := by
  apply clean_text_fixed
  · exact noAdjWSb_collapseWS y
  · exact fun c hc => mem_collapseWS_ws y c hc
  · intro c hc
    rcases mem_collapseWS y c hc with h | h
    · subst h; decide
    · exact hall c h
  · intro c hc
    cases y with
    | nil => simp [collapseWS] at hc
    | cons a t =>
      obtain ⟨d, t', hd, hws⟩ := collapseWS_head t a
      rw [hd, List.head?_cons, Option.some.injEq] at hc
      subst hc
      rw [hws]
      exact hh a rfl
  · intro c hc
    cases y with
    | nil => simp [collapseWS] at hc
    | cons a t =>
      have hsome : ∃ d, (a :: t).getLast? = some d := by
        cases hval : (a :: t).getLast? with
        | none => rw [List.getLast?_eq_none_iff] at hval; exact absurd hval (List.cons_ne_nil a t)
        | some d => exact ⟨d, rfl⟩
      obtain ⟨d, hld⟩ := hsome
      have hdns := hl d hld
      have := getLast?_collapseWS (a :: t) d hld hdns
      rw [this, Option.some.injEq] at hc
      subst hc
      exact hdns

/-!
## Claim C2
-/

/-- Claim C2, counterexample: `clean_text` is not idempotent.  On
`"a @ b"` the first pass removes the disallowed `@` after collapsing
whitespace, leaving the double space `"a  b"`, which a second pass
collapses further. -/
theorem C2_counterexample :
    clean_text (clean_text badText) ≠ clean_text badText := by decide

/-- Claim C2, amended: a single `clean_text` pass is not idempotent
(stripping a disallowed character can merge two whitespace runs), but a
second pass reaches a fixed point: `clean_text ∘ clean_text` is
idempotent, i.e. three passes agree with two for every input. -/
theorem C2_double_pass_idempotent (x : List Char) :
    clean_text (clean_text (clean_text x)) = clean_text (clean_text x) := by
  rw [clean_clean_eq_collapse x]
  exact clean_text_collapse_fixed (clean_text x) (clean_text_allowed x)
    (clean_text_head x) (clean_text_getLast x)

/-!
## Claim C3
-/

/-- Claim C3, counterexample: the output of `clean_text` can contain a run
of two consecutive spaces.  On `"a @ b"` the whitespace collapse happens
before the allow-list filter, so deleting `@` leaves `"a  b"`.  The other
conjuncts of the claim hold, but the conjunction is false. -/
theorem C3_counterexample :
    ¬ (noAdjWSb (clean_text badText) = true ∧
       (∀ c ∈ clean_text badText, allowedChar c = true) ∧
       (∀ c ∈ clean_text badText, pyIsSpace c = true → c = ' ') ∧
       ((clean_text badText).head?.all fun c => !pyIsSpace c) = true ∧
       ((clean_text badText).getLast?.all fun c => !pyIsSpace c) = true ∧
       clean_text ([] : List Char) = []) := by decide

/-- Claim C3, amended: every character of `clean_text`'s output is on the
allow-list, every whitespace character in the output is a single-space
character (newlines and tabs never survive), the ends are not whitespace,
and the empty input yields the empty output.  However, runs of several
spaces can remain when a disallowed character was deleted between two
spaces, so "no run of two or more consecutive whitespace characters" is
dropped from the claim. -/
theorem C3_output_charset (x : List Char) :
    (∀ c ∈ clean_text x, allowedChar c = true) ∧
    (∀ c ∈ clean_text x, pyIsSpace c = true → c = ' ') ∧
    ((clean_text x).head?.all fun c => !pyIsSpace c) = true ∧
    ((clean_text x).getLast?.all fun c => !pyIsSpace c) = true ∧
    clean_text ([] : List Char) = [] := by
  refine ⟨clean_text_allowed x, clean_text_ws x, ?_, ?_, rfl⟩
  · cases hc : (clean_text x).head? with
    | none => rfl
    | some c =>
      have := clean_text_head x c hc
      simp [Option.all, this]
  · cases hc : (clean_text x).getLast? with
    | none => rfl
    | some c =>
      have := clean_text_getLast x c hc
      simp [Option.all, this]

/-- Claim C3, witness: the amended theorem evaluated at the concrete text
`"a @ b"`. -/
theorem C3_witness :
    (∀ c ∈ clean_text badText, allowedChar c = true) ∧
    (∀ c ∈ clean_text badText, pyIsSpace c = true → c = ' ') ∧
    ((clean_text badText).head?.all fun c => !pyIsSpace c) = true ∧
    ((clean_text badText).getLast?.all fun c => !pyIsSpace c) = true ∧
    clean_text ([] : List Char) = [] :=
  C3_output_charset badText

/-!
## Lemmas about chunking
-/

/-- At the default parameters the step is `450`, so the raw windows are
`words[450*j : 450*j + 500]` for `j < ⌈len(words) / 450⌉`. -/
theorem raw_windows_default (words : List (List Char)) :
    raw_windows words 500 50 =
      some ((List.range ((words.length + 449) / 450)).map
        (fun j => (words.drop (j * 450)).take 500)) := by
  unfold raw_windows pyRange0
  rw [show ((500 : Nat) : Int) - ((50 : Nat) : Int) = 450 by norm_num]
  rw [if_pos (by norm_num)]
  rw [show ((450 : Int)).toNat = 450 by rfl]
  rw [show words.length + 450 - 1 = words.length + 449 by omega]
  rw [Option.map_some', List.map_map]
  rfl

theorem dropLast_map_range {α : Type} (n : Nat) (f : Nat → α) :
    ((List.range n).map f).dropLast = (List.range (n - 1)).map f := by
  cases n with
  | zero => rfl
  | succ m =>
    rw [List.range_succ, List.map_append, List.map_singleton, List.dropLast_concat]
    rfl

/-!
## Claim C1
-/

set_option maxRecDepth 100000 in
/-- Claim C1, counterexample: for 910 single-letter words the code
produces `⌈910 / 450⌉ = 3` raw windows, not the claimed
`⌈(910 - 50) / 450⌉ = 2`; and the middle window (not the last) holds only
460 words, refuting "every window except possibly the last contains
exactly chunk_size words". -/
theorem C1_counterexample :
    (raw_windows (pySplit w910text) 500 50).map List.length ≠
      some (((pySplit w910text).length - 50 + 449) / 450) ∧
    ¬ ∀ W, raw_windows (pySplit w910text) 500 50 = some W →
        ∀ w ∈ W.dropLast, w.length = 500 := by
  constructor
  · decide
  · intro h
    have h460 := h W910 (by decide) (List.replicate 460 (['a'] : List Char)) (by decide)
    rw [List.length_replicate] at h460
    exact absurd h460 (by norm_num)

/-- Claim C1, amended: with `chunk_size=500, overlap=50` the code steps by
`450` from word index 0, so a text of `L` whitespace-delimited words
yields `⌈L / 450⌉` raw windows (not `⌈(L - 50) / 450⌉`), and every window
except possibly the last **two** contains exactly 500 words (the
second-to-last window is short whenever `L mod 450` is between 1 and
50). -/
theorem C1_window_count (text : List Char) (W : List (List (List Char)))
    (hW : raw_windows (pySplit text) 500 50 = some W) :
    W.length = ((pySplit text).length + 449) / 450 ∧
    ∀ w ∈ W.dropLast.dropLast, w.length = 500 := by
  rw [raw_windows_default, Option.some.injEq] at hW
  subst hW
  constructor
  · rw [List.length_map, List.length_range]
  · intro w hw
    rw [dropLast_map_range, dropLast_map_range] at hw
    obtain ⟨j, hj, rfl⟩ := List.mem_map.mp hw
    rw [List.mem_range] at hj
    have h2 : j + 3 ≤ ((pySplit text).length + 449) / 450 := by omega
    have h3 : (j + 3) * 450 ≤ (pySplit text).length + 449 :=
      (Nat.le_div_iff_mul_le (by norm_num)).mp h2
    rw [List.length_take, List.length_drop]
    omega

set_option maxRecDepth 100000 in
/-- Claim C1, witness: the amended theorem evaluated on 910 single-letter
words, whose windows hold 500, 460 and 10 words. -/
theorem C1_witness :
    W910.length = ((pySplit w910text).length + 449) / 450 ∧
    ∀ w ∈ W910.dropLast.dropLast, w.length = 500 :=
  C1_window_count w910text W910 (by decide)

/-!
## Claim C4
-/

/-- Claim C4: the code contains no parameter guard.  With
`overlap > chunk_size` Python's `range` with a negative step is empty, so
`chunk_text` silently returns the degenerate empty list; with
`overlap = chunk_size` the call `range(0, n, 0)` raises an unrelated
`ValueError` (modelled as `none`).  Neither path is the explicit
invalid-parameter failure the claim requires. -/
theorem C4_unguarded_parameters (text : List Char) :
    chunk_text text 500 600 = some [] ∧ chunk_text text 500 500 = none := by
  constructor
  · unfold chunk_text chunk_words raw_windows pyRange0
    rw [show ((500 : Nat) : Int) - ((600 : Nat) : Int) = -100 by norm_num]
    rw [if_neg (by norm_num), if_pos (by norm_num)]
    rfl
  · unfold chunk_text chunk_words raw_windows pyRange0
    rw [show ((500 : Nat) : Int) - ((500 : Nat) : Int) = 0 by norm_num]
    rw [if_neg (by norm_num), if_neg (by norm_num)]
    rfl

/-!
## Claim C9
-/

/-- Claim C9: every chunk in a list returned by `chunk_text` has trimmed
length strictly greater than 50 characters, for every input text and all
parameters (when the parameters make `chunk_text` raise instead, no list
is returned and the claim is vacuous). -/
theorem C9_filter_invariant (text : List Char) (cs ov : Nat) (out : List (List Char))
    (hout : chunk_text text cs ov = some out) :
    ∀ c ∈ out, 50 < (stripChars c).length := by
  intro c hc
  unfold chunk_text chunk_words at hout
  obtain ⟨W, _, hfil⟩ := Option.map_eq_some'.mp hout
  rw [← hfil] at hc
  have hkeep := List.of_mem_filter hc
  rw [chunkKeep, decide_eq_true_eq] at hkeep
  exact hkeep

/-- Claim C9, witness: a single 60-character word makes one chunk of
trimmed length 60. -/
theorem C9_witness :
    chunk_text text60 500 50 = some [text60] ∧ 50 < (stripChars text60).length :=
  ⟨by decide, C9_filter_invariant text60 500 50 [text60] (by decide) text60 (by decide)⟩

/-!
## Claim C8
-/

/-- Claim C8: a 600-word text yields exactly two chunks, the join of
`words[0:500]` and the join of `words[450:600]` (150 words), provided
both pass the 50-character filter. -/
theorem C8_six_hundred_words (text : List Char)
    (h : (pySplit text).length = 600)
    (h1 : 50 < (stripChars (spaceJoin ((pySplit text).take 500))).length)
    (h2 : 50 < (stripChars (spaceJoin ((pySplit text).drop 450))).length) :
    chunk_text text 500 50 =
      some [spaceJoin ((pySplit text).take 500), spaceJoin ((pySplit text).drop 450)] ∧
    ((pySplit text).drop 450).length = 150 := by
  have hd : ((pySplit text).drop 450).length = 150 := by
    rw [List.length_drop, h]
  refine ⟨?_, hd⟩
  have hk1 : chunkKeep (spaceJoin ((pySplit text).take 500)) = true := by
    rw [chunkKeep, decide_eq_true_eq]
    exact h1
  have hk2 : chunkKeep (spaceJoin ((pySplit text).drop 450)) = true := by
    rw [chunkKeep, decide_eq_true_eq]
    exact h2
  have htake2 : ((pySplit text).drop 450).take 500 = (pySplit text).drop 450 :=
    List.take_of_length_le (by rw [hd]; norm_num)
  unfold chunk_text chunk_words
  rw [raw_windows_default, h]
  rw [show (600 + 449) / 450 = 2 by norm_num]
  rw [show List.range 2 = [0, 1] from rfl]
  simp only [List.map_cons, List.map_nil, Option.map_some', Nat.zero_mul, Nat.one_mul,
    List.drop_zero, htake2]
  simp [List.filter, hk1, hk2]

set_option maxRecDepth 400000 in
/-- Claim C8, witness: the theorem evaluated on 600 single-letter words;
both chunks comfortably exceed the 50-character filter. -/
theorem C8_witness :
    (pySplit T600).length = 600 ∧
    (chunk_text T600 500 50 =
      some [spaceJoin ((pySplit T600).take 500), spaceJoin ((pySplit T600).drop 450)] ∧
     ((pySplit T600).drop 450).length = 150) :=
  ⟨by decide, C8_six_hundred_words T600 (by decide) (by decide) (by decide)⟩

/-!
## Claim C5
-/

theorem allChunks_append (l1 l2 : List PdfDoc) :
    allChunks (l1 ++ l2) = allChunks l1 ++ allChunks l2 := by
  induction l1 with
  | nil => rfl
  | cons d t ih =>
    rw [List.cons_append, allChunks, allChunks, ih, List.append_assoc]

/-- Claim C5, counterexample: a document whose second page raises after a
first page of meaningful text is **not** skipped entirely: the failure is
caught, but the partial text accumulated before it is chunked and stored
(one 60-character chunk here). -/
theorem C5_counterexample :
    (extract_text_from_pdf docMidFail).2 = some ['b'] ∧ docChunks docMidFail ≠ [] := by
  constructor
  · rfl
  · decide

/-- Claim C5, amended: an extraction failure is caught (the function
returns the text accumulated so far together with the caught message, as
the `openFail` equation shows) and ingestion continues with the remaining
documents; the failing document contributes no chunks exactly when the
text accumulated before the failure strips to empty — in particular
whenever opening the file fails.  A mid-document page failure instead
stores the partial text (see the counterexample). -/
theorem C5_skip_on_empty_extraction :
    (∀ e, extract_text_from_pdf (PdfDoc.openFail e) = ([], some e)) ∧
    ∀ pre (d : PdfDoc) post, stripChars (extract_text_from_pdf d).1 = [] →
      allChunks (pre ++ d :: post) = allChunks pre ++ allChunks post := by
  refine ⟨fun e => rfl, ?_⟩
  intro pre d post hempty
  have hd : docChunks d = [] := by
    unfold docChunks
    rw [if_pos hempty]
  rw [allChunks_append, allChunks, hd, List.nil_append]

/-- Claim C5, witness: the amended theorem applied with a document that
fails at open, surrounded by two documents with real text. -/
theorem C5_witness :
    stripChars (extract_text_from_pdf (PdfDoc.openFail ['e'])).1 = [] ∧
    allChunks ([preDoc] ++ PdfDoc.openFail ['e'] :: [preDoc]) =
      allChunks [preDoc] ++ allChunks [preDoc] :=
  ⟨rfl, C5_skip_on_empty_extraction.2 [preDoc] (PdfDoc.openFail ['e']) [preDoc] rfl⟩

/-!
## Claim C6
-/

/-- `query_database` never writes to standard output, in any branch. -/
theorem query_database_stdout (store : Except (List Char) RawResults) :
    (query_database store).stdout = [] := by
  cases store with
  | error e => rfl
  | ok r =>
    rw [query_database]
    by_cases h1 : r.documents ≠ [] ∧ r.documents.headD [] ≠ []
    · rw [if_pos h1]
      by_cases h2 : (r.documents.headD []).length ≤ (r.metadatas.headD []).length ∧
          (r.documents.headD []).length ≤ (r.distances.headD []).length ∧
          r.metadatas ≠ [] ∧ r.distances ≠ []
      · rw [if_pos h2]
      · rw [if_neg h2]
    · rw [if_neg h1]

/-- Claim C6: `query_database` never writes to standard output; when the
store raises (missing collection, embedding or retrieval failure) the
caught error is written to standard error and the empty list is returned;
and a present-but-empty collection yields the empty list with nothing on
either stream. -/
theorem C6_query_error_handling (store : Except (List Char) RawResults) :
    (query_database store).stdout = [] ∧
    (∀ e, store = Except.error e →
      (query_database store).result = [] ∧ (query_database store).stderr = [errMsg e]) ∧
    (∀ r, store = Except.ok r → (r.documents = [] ∨ r.documents.headD [] = []) →
      query_database store = { result := [], stdout := [], stderr := [] }) := by
  refine ⟨query_database_stdout store, ?_, ?_⟩
  · intro e he
    subst he
    exact ⟨rfl, rfl⟩
  · intro r hr hempty
    subst hr
    rw [query_database, if_neg]
    rintro ⟨hne, hne2⟩
    rcases hempty with h | h
    · exact hne h
    · exact hne2 h

/-- Claim C6, witness: the theorem evaluated at a raising store. -/
theorem C6_witness :
    (query_database storeX).stdout = [] ∧
    (∀ e, storeX = Except.error e →
      (query_database storeX).result = [] ∧ (query_database storeX).stderr = [errMsg e]) ∧
    (∀ r, storeX = Except.ok r → (r.documents = [] ∨ r.documents.headD [] = []) →
      query_database storeX = { result := [], stdout := [], stderr := [] }) :=
  C6_query_error_handling storeX

/-!
## Claim C7
-/

/-- Claim C7, counterexample: with a third argument that is not an integer
literal, `int(sys.argv[2])` raises an uncaught `ValueError`: the process
crashes and emits **no** JSON payload on standard output, refuting "emits
structured JSON as its sole standard-output payload regardless of success
or failure ... in particular when the optional top_k argument is present
but is not a positive integer". -/
theorem C7_counterexample :
    2 ≤ argvBad.length ∧
    ¬ ∃ res, (cliMain argvBad storeErr).1 = [StdoutItem.jsonPayload res] := by
  refine ⟨by decide, ?_⟩
  rintro ⟨res, hres⟩
  have h0 : (cliMain argvBad storeErr).1 = [] := by decide
  rw [h0] at hres
  exact List.cons_ne_nil _ _ hres.symm

/-- Claim C7, amended: for every invocation with a query argument, the
process emits the JSON result list (possibly empty) as its sole
standard-output payload and no exception escapes, **provided** the
optional `top_k` argument, when present, parses as an integer (it need not
be positive: a zero or negative value reaches the store, whose failure is
caught and yields the empty JSON list).  A non-integer `top_k` instead
crashes the process before any output (see the counterexample). -/
theorem C7_json_output (argv : List (List Char))
    (store : List Char → Int → Except (List Char) RawResults)
    (h2 : 2 ≤ argv.length)
    (hk : argv.length = 2 ∨ (pyParseInt (argv.getD 2 [])).isSome = true) :
    ∃ res, (cliMain argv store).1 = [StdoutItem.jsonPayload res] ∧
      (cliMain argv store).2.2 = none := by
  unfold cliMain
  rw [if_neg (by omega)]
  by_cases h3 : 2 < argv.length
  · rcases hk with he | hs
    · omega
    · obtain ⟨k, hk'⟩ := Option.isSome_iff_exists.mp hs
      rw [if_pos h3, hk']
      refine ⟨(query_database (store (argv.getD 1 []) k)).result, ?_, rfl⟩
      show (query_database (store (argv.getD 1 []) k)).stdout ++
          [StdoutItem.jsonPayload (query_database (store (argv.getD 1 []) k)).result] =
        [StdoutItem.jsonPayload (query_database (store (argv.getD 1 []) k)).result]
      rw [query_database_stdout, List.nil_append]
  · rw [if_neg h3]
    refine ⟨(query_database (store (argv.getD 1 []) 5)).result, ?_, rfl⟩
    show (query_database (store (argv.getD 1 []) 5)).stdout ++
        [StdoutItem.jsonPayload (query_database (store (argv.getD 1 []) 5)).result] =
      [StdoutItem.jsonPayload (query_database (store (argv.getD 1 []) 5)).result]
    rw [query_database_stdout, List.nil_append]

/-- Claim C7, witness: the amended theorem at a two-argument invocation
against a raising store: the sole stdout payload is the empty JSON list. -/
theorem C7_witness :
    2 ≤ argvOk.length ∧
    ∃ res, (cliMain argvOk storeErr).1 = [StdoutItem.jsonPayload res] ∧
      (cliMain argvOk storeErr).2.2 = none :=
  ⟨by decide, C7_json_output argvOk storeErr (by decide) (Or.inl (by decide))⟩

/-!
## Claim C10
-/

/-- Claim C10, counterexample: the code builds `books_processed` with
`f.replace('.pdf', '')`, which removes **every** occurrence of `.pdf`, not
just the extension.  The discovered file `a.pdf.pdf` is listed as `a`,
not as its base name `a.pdf`. -/
theorem C10_counterexample :
    ¬ ((process_all_books pdfPdfFiles).map Summary.books_processed =
        some ((pdfPdfFiles.filter (fun f => endsWithPdf f.1)).map (fun f => baseName f.1))) := by
  decide

/-- Claim C10, amended: when at least one `.pdf` file is discovered, the
summary is written with `total_books` equal to the number of discovered
`.pdf` files and `books_processed` listing, for every discovered file,
its name with every `.pdf` substring removed (equal to the base name
whenever `.pdf` appears only as the extension) — including files whose
extraction yielded empty text and therefore contributed zero chunks,
since the list is built from the directory listing alone. -/
theorem C10_summary_lists_all_pdfs (files : List (List Char × PdfDoc))
    (h : files.filter (fun f => endsWithPdf f.1) ≠ []) :
    ∃ s, process_all_books files = some s ∧
      s.total_books = (files.filter (fun f => endsWithPdf f.1)).length ∧
      s.books_processed =
        (files.filter (fun f => endsWithPdf f.1)).map (fun f => stripPdfAll f.1) ∧
      ∀ f ∈ files, endsWithPdf f.1 = true → stripPdfAll f.1 ∈ s.books_processed := by
  have hne : (files.filter (fun f => endsWithPdf f.1)).isEmpty = false := by
    cases hval : (files.filter (fun f => endsWithPdf f.1)).isEmpty with
    | false => rfl
    | true => exact absurd (List.isEmpty_iff.mp hval) h
  unfold process_all_books
  rw [hne, if_neg Bool.false_ne_true]
  refine ⟨_, rfl, rfl, rfl, ?_⟩
  intro f hf hends
  exact List.mem_map_of_mem _ (List.mem_filter.mpr ⟨hf, hends⟩)

/-- Claim C10, witness: a single discovered file whose extraction fails at
open contributes no chunks but still appears in the summary. -/
theorem C10_witness :
    ∃ s, process_all_books oneGoodName = some s ∧
      s.total_books = (oneGoodName.filter (fun f => endsWithPdf f.1)).length ∧
      s.books_processed =
        (oneGoodName.filter (fun f => endsWithPdf f.1)).map (fun f => stripPdfAll f.1) ∧
      ∀ f ∈ oneGoodName, endsWithPdf f.1 = true → stripPdfAll f.1 ∈ s.books_processed :=
  C10_summary_lists_all_pdfs oneGoodName
    (by rw [show oneGoodName.filter (fun f => endsWithPdf f.1) = oneGoodName from rfl]
        exact List.cons_ne_nil _ _)
